import Mathlib

/-!
Shallow embedding of the chess-variant engine in `src/Chess_main.py`.

The board grid (`self.board`, a Python 8x8 list of lists holding piece objects
or `None`) is embedded as a total function `Int → Int → Option Piece`; all
in-engine accesses are guarded by `0 <= i < 8` bounds checks in the source, so
cells outside that range are never consulted by the embedded operations under
the preconditions the theorems state.  Mutation of the Python objects becomes
explicit state passing: operations return the updated `Board` value.  Python
statements that raise (`AttributeError` on a missing attribute, `NameError` on
an unbound name, `IndexError` / `ValueError` from indexing and `int()`) are
embedded as `Except PyErr` results.
-/

/-- Embeds the piece colour strings `'white'` and `'black'` used by the source. -/
inductive Color where
  | white
  | black
deriving DecidableEq

/-- Embeds the Python class of a piece (the spec's kind-tag): `Pawn`, `Rook`,
`Knight`, `Bishop`, `Queen`, `King`, plus the replacement classes `SuperBishop`,
`Fence`, `Gosha` and the checkers class `CheckersPiece`. -/
inductive Kind where
  | pawn
  | rook
  | knight
  | bishop
  | queen
  | king
  | superBishop
  | fence
  | gosha
  | checkersPiece
deriving DecidableEq

/-- Embeds a piece object: `color` and `location` are the attributes set by
`ChessPiece.__init__`; `kind` records the Python class; `invulnerable` embeds
`getattr(target, 'invulnerable', False)` — the `Fence` constructor sets the
attribute to `True`, every other class leaves it absent, i.e. `false`.
The display `symbol` attribute is omitted: no claim concerns rendering. -/
structure Piece where
  color : Color
  kind : Kind
  location : String
  invulnerable : Bool
deriving DecidableEq

/-- Embeds the `Move` class: `start_pos`, `end_pos`, the moved piece object as
it is at append time (its `location` already updated to `end_pos`), and the
captured piece (occupant of the destination cell) or `None`. -/
structure MoveRec where
  start_pos : String
  end_pos : String
  piece : Piece
  captured : Option Piece
deriving DecidableEq

/-- Embeds `ChessBoard`: the 8x8 grid `self.board` and the move history list
`self.movement_history` (note the attribute name: the en-passant code in
`Pawn.get_possible_moves` instead reads `board.move_history`, which does not
exist). -/
structure Board where
  grid : Int → Int → Option Piece
  movement_history : List MoveRec

/-- Embeds the Python exceptions that the engine's slips can raise:
`AttributeError` (reading an attribute that was never assigned), `NameError`
(an unbound local name), `IndexError` (string index out of range), and
`ValueError` (`int()` of a non-digit, or unpacking a split of the wrong arity). -/
inductive PyErr where
  | attributeError
  | nameError
  | indexError
  | valueError
deriving DecidableEq

/-- Embeds `ChessBoard.pos_to_indices`: `col = ord(pos[0]) - ord('a')`,
`row = int(pos[1]) - 1`.  The source performs no validation at all: an empty
or one-character string raises `IndexError` at the subscript, a second
character that is not a decimal digit makes `int()` raise `ValueError`, and
any other text (overlong, letters outside a-h, rank digits outside 1-8)
returns whatever pair the arithmetic yields.  (`int()` is modelled on ASCII
digits, the only characters the engine ever produces.) -/
def pos_to_indices (pos : String) : Except PyErr (Int × Int) :=
  match pos.data with
  | c0 :: c1 :: _ =>
      if c1.isDigit then
        Except.ok (((c1.toNat : Int) - 48) - 1, (c0.toNat : Int) - 97)
      else
        Except.error PyErr.valueError
  | _ => Except.error PyErr.indexError

/-- Embeds `ChessBoard.indices_to_pos`: `chr(ord('a') + col) + str(row + 1)`.
Only ever called with `0 <= row < 8` and `0 <= col < 8` (every call site is
bounds-checked), where `str(row + 1)` is a single digit character. -/
def indices_to_pos (row col : Int) : String :=
  String.singleton (Char.ofNat (97 + col).toNat) ++ toString (row + 1)

/-- Embeds a single assignment `board[r][c] = v` to the grid. -/
def setCell (g : Int → Int → Option Piece) (r c : Int) (v : Option Piece) :
    Int → Int → Option Piece :=
  fun r' c' => if r' = r ∧ c' = c then v else g r' c'

/-- Embeds a sequence of `board[r][c] = None` assignments, one per listed cell
(the body of the sweep loop in `ChessBoard.make_move`). -/
def clearCells (g : Int → Int → Option Piece) : List (Int × Int) → (Int → Int → Option Piece)
  | [] => g
  | (r, c) :: rest => clearCells (setCell g r c none) rest

/-- Embeds the control flow of the sweep loop in `ChessBoard.make_move`:
`while r != end_row or c != end_col:` starting from the cell one step from the
origin, collecting each visited cell and advancing by `(dr, dc)`.  The Python
loop terminates only because a super-bishop move travels along a diagonal of
the 8x8 board, taking at most 7 steps; the fuel argument (called with 8) is
strictly larger than that bound, so under the diagonal precondition the
embedding visits exactly the cells the loop visits. -/
def sweepPath (er ec dr dc : Int) : Nat → Int → Int → List (Int × Int)
  | 0, _, _ => []
  | fuel + 1, r, c =>
      if r = er ∧ c = ec then []
      else (r, c) :: sweepPath er ec dr dc fuel (r + dr) (c + dc)

/-- Embeds Python `move_str.split('-')` (the first line of
`ChessBoard.make_move`), written as direct recursion on the character list so
that it evaluates by kernel reduction. -/
def splitDashAux (cur : List Char) : List Char → List String
  | [] => [String.mk cur.reverse]
  | ch :: rest =>
      if ch = '-' then String.mk cur.reverse :: splitDashAux [] rest
      else splitDashAux (ch :: cur) rest

/-- Embeds Python `move_str.split('-')`. -/
def splitDash (s : String) : List String :=
  splitDashAux [] s.data

/-- Embeds `ChessBoard.make_move(move_str, super_bishop)`.  The move string is
split on `'-'` (unpacking into two parts raises `ValueError` otherwise), both
ends are decoded by `pos_to_indices`, the moving piece and the destination
occupant are read, in sweep mode every cell strictly between origin and
destination is set to `None`, then the destination cell receives the piece,
the origin cell is cleared, the piece's `location` attribute becomes
`end_pos`, and a `Move` record is appended to `movement_history`.  When the
origin cell is empty the Python `piece.location = end_pos` raises
`AttributeError` on `None` (after having already written the two cells); the
embedding reports the error — the spec's precondition "origin holds a piece"
makes that branch unreachable in every claim. -/
def ChessBoard.make_move (b : Board) (move_str : String) (super_bishop : Bool) :
    Except PyErr Board :=
  match splitDash move_str with
  | [start_pos, end_pos] =>
    match pos_to_indices start_pos, pos_to_indices end_pos with
    | Except.ok (start_row, start_col), Except.ok (end_row, end_col) =>
      match b.grid start_row start_col with
      | some piece =>
        let captured := b.grid end_row end_col
        let g1 :=
          if super_bishop then
            let dr : Int := if start_row > end_row then -1 else if start_row < end_row then 1 else 0
            let dc : Int := if start_col > end_col then -1 else if start_col < end_col then 1 else 0
            clearCells b.grid (sweepPath end_row end_col dr dc 8 (start_row + dr) (start_col + dc))
          else b.grid
        let moved : Piece := { piece with location := end_pos }
        Except.ok
          { grid := setCell (setCell g1 end_row end_col (some moved)) start_row start_col none,
            movement_history := b.movement_history ++ [MoveRec.mk start_pos end_pos moved captured] }
      | none => Except.error PyErr.attributeError
    | Except.error e, _ => Except.error e
    | _, Except.error e => Except.error e
  | _ => Except.error PyErr.valueError

/-- Embeds `ChessBoard.undo_move`: returns `False` on an empty history;
otherwise pops the last `Move` record, puts the moved piece back on the origin
cell, the captured piece (or `None`) back on the destination cell, and resets
the piece's `location` attribute to the origin (the Python mutates the very
object it just placed, so the restored cell holds the piece with its original
location). -/
def ChessBoard.undo_move (b : Board) : Except PyErr (Bool × Board) :=
  match b.movement_history.getLast? with
  | none => Except.ok (false, b)
  | some move =>
    match pos_to_indices move.start_pos, pos_to_indices move.end_pos with
    | Except.ok (start_row, start_col), Except.ok (end_row, end_col) =>
      let g1 := setCell b.grid start_row start_col (some { move.piece with location := move.start_pos })
      let g2 := setCell g1 end_row end_col move.captured
      Except.ok (true, { grid := g2, movement_history := b.movement_history.dropLast })
    | Except.error e, _ => Except.error e
    | _, Except.error e => Except.error e

deriving instance DecidableEq for Except

/-- Embeds the inner `for i in range(1, 8)` ray loop shared by
`ChessBoard.get_straight_moves` and `ChessBoard.get_diagonal_moves`, walking
from `(r, c)` in direction `(dr, dc)` for at most `steps` further squares
(the loop makes at most 7 iterations).  An out-of-bounds square breaks; an
empty square is appended and the walk continues; an opposing non-invulnerable
piece is appended, after which the walk breaks unless `superB` is set; any
other occupant breaks unless `superB` is set, in which case the square is
skipped and the walk continues (this is exactly the `if not super_bishop`
structure of the diagonal loop; the straight loop is the `superB = false`
instance, its unused `super_bishop` parameter never being passed). -/
def rayWalk (g : Int → Int → Option Piece) (color : Color) (dr dc : Int) (superB : Bool) :
    Nat → Int → Int → List String
  | 0, _, _ => []
  | steps + 1, r, c =>
      let nr := r + dr
      let nc := c + dc
      if 0 ≤ nr ∧ nr < 8 ∧ 0 ≤ nc ∧ nc < 8 then
        match g nr nc with
        | none => indices_to_pos nr nc :: rayWalk g color dr dc superB steps nr nc
        | some target =>
            if target.color ≠ color ∧ target.invulnerable = false then
              if superB then indices_to_pos nr nc :: rayWalk g color dr dc superB steps nr nc
              else [indices_to_pos nr nc]
            else
              if superB then rayWalk g color dr dc superB steps nr nc
              else []
      else []

/-- Embeds `ChessBoard.get_straight_moves(pos, color)`: decodes `pos`, then
walks the four orthogonal directions in source order. -/
def get_straight_moves (b : Board) (pos : String) (color : Color) :
    Except PyErr (List String) :=
  match pos_to_indices pos with
  | Except.ok rc =>
    Except.ok (([((-1 : Int), (0 : Int)), (1, 0), (0, -1), (0, 1)]).flatMap
      fun d => rayWalk b.grid color d.1 d.2 false 7 rc.1 rc.2)
  | Except.error e => Except.error e

/-- Embeds `ChessBoard.get_diagonal_moves(pos, color, super_bishop)`: decodes
`pos`, then walks the four diagonal directions in source order, passing the
`super_bishop` flag through to the ray loop. -/
def get_diagonal_moves (b : Board) (pos : String) (color : Color) (super_bishop : Bool) :
    Except PyErr (List String) :=
  match pos_to_indices pos with
  | Except.ok rc =>
    Except.ok (([((-1 : Int), (-1 : Int)), (-1, 1), (1, -1), (1, 1)]).flatMap
      fun d => rayWalk b.grid color d.1 d.2 super_bishop 7 rc.1 rc.2)
  | Except.error e => Except.error e

/-- Embeds the fixed-offset loop shared by `Knight`, `King` and `Gosha`
`get_possible_moves` bodies: each in-bounds offset square is appended when it
is empty or holds a piece of the other colour — note that, unlike the ray
helpers, this test does **not** consult the target's `invulnerable` flag. -/
def offsetMoves (g : Int → Int → Option Piece) (color : Color) (row col : Int) :
    List (Int × Int) → List String
  | [] => []
  | (dr, dc) :: rest =>
      let nr := row + dr
      let nc := col + dc
      if 0 ≤ nr ∧ nr < 8 ∧ 0 ≤ nc ∧ nc < 8 then
        match g nr nc with
        | none => indices_to_pos nr nc :: offsetMoves g color row col rest
        | some target =>
            if target.color ≠ color then indices_to_pos nr nc :: offsetMoves g color row col rest
            else offsetMoves g color row col rest
      else offsetMoves g color row col rest

/-- Embeds `Pawn.get_possible_moves`.  Its first statement reads
`self.position`, but `ChessPiece.__init__` stores the square under the
attribute name `location` and no `position` attribute is ever assigned, so
every call raises `AttributeError` before computing any move.  (Were that
name fixed, the en-passant block would additionally read the nonexistent
`board.move_history` attribute — the history list is `movement_history`.) -/
def Pawn.get_possible_moves (_self : Piece) (_b : Board) : Except PyErr (List String) :=
  Except.error PyErr.attributeError

/-- Embeds `Rook.get_possible_moves`: delegates to the straight-ray helper at
`self.location`. -/
def Rook.get_possible_moves (self : Piece) (b : Board) : Except PyErr (List String) :=
  get_straight_moves b self.location self.color

/-- Embeds `Knight.get_possible_moves`: the eight knight offsets, empty or
opposing-colour squares admitted, with no `invulnerable` test. -/
def Knight.get_possible_moves (self : Piece) (b : Board) : Except PyErr (List String) :=
  match pos_to_indices self.location with
  | Except.ok rc =>
    Except.ok (offsetMoves b.grid self.color rc.1 rc.2
      [(-2, -1), (-2, 1), (-1, -2), (-1, 2), (1, -2), (1, 2), (2, -1), (2, 1)])
  | Except.error e => Except.error e

/-- Embeds `Bishop.get_possible_moves`: delegates to the diagonal-ray helper
in normal (non-pass-through) mode. -/
def Bishop.get_possible_moves (self : Piece) (b : Board) : Except PyErr (List String) :=
  get_diagonal_moves b self.location self.color false

/-- Embeds `Queen.get_possible_moves`: straight rays followed by diagonal
rays from the same square. -/
def Queen.get_possible_moves (self : Piece) (b : Board) : Except PyErr (List String) :=
  match get_straight_moves b self.location self.color,
      get_diagonal_moves b self.location self.color false with
  | Except.ok s, Except.ok d => Except.ok (s ++ d)
  | Except.error e, _ => Except.error e
  | _, Except.error e => Except.error e

/-- Embeds `King.get_possible_moves`: the eight adjacent offsets (the nested
`dr`/`dc` loops skipping `(0, 0)`), empty or opposing-colour squares admitted,
with no `invulnerable` test. -/
def King.get_possible_moves (self : Piece) (b : Board) : Except PyErr (List String) :=
  match pos_to_indices self.location with
  | Except.ok rc =>
    Except.ok (offsetMoves b.grid self.color rc.1 rc.2
      [(-1, -1), (-1, 0), (-1, 1), (0, -1), (0, 1), (1, -1), (1, 0), (1, 1)])
  | Except.error e => Except.error e

/-- Embeds `SuperBishop.get_possible_moves`: the diagonal-ray helper with
`super_bishop=True`. -/
def SuperBishop.get_possible_moves (self : Piece) (b : Board) : Except PyErr (List String) :=
  get_diagonal_moves b self.location self.color true

/-- Embeds the capture loop of `Fence.get_possible_moves` over the offsets
`[(direction, -1), (direction, 1), (direction, 0)]`: an in-bounds occupied
square is appended when the occupant is of the other colour and not
invulnerable (this is the one piece-local capture rule that does test
`getattr(target, 'invulnerable', False)`). -/
def fenceCaptureMoves (g : Int → Int → Option Piece) (color : Color) (row col : Int) :
    List (Int × Int) → List String
  | [] => []
  | (dr, dc) :: rest =>
      let nr := row + dr
      let nc := col + dc
      if 0 ≤ nr ∧ nr < 8 ∧ 0 ≤ nc ∧ nc < 8 then
        match g nr nc with
        | some target =>
            if target.color ≠ color ∧ target.invulnerable = false then
              indices_to_pos nr nc :: fenceCaptureMoves g color row col rest
            else fenceCaptureMoves g color row col rest
        | none => fenceCaptureMoves g color row col rest
      else fenceCaptureMoves g color row col rest

/-- Embeds `Fence.get_possible_moves`: one forward step if that square is
empty, then the three capture offsets (front-left, front-right, straight
ahead). -/
def Fence.get_possible_moves (self : Piece) (b : Board) : Except PyErr (List String) :=
  match pos_to_indices self.location with
  | Except.ok rc =>
    let direction : Int := if self.color = Color.white then 1 else -1
    let nr := rc.1 + direction
    let forward :=
      if 0 ≤ nr ∧ nr < 8 ∧ b.grid nr rc.2 = none then [indices_to_pos nr rc.2] else []
    Except.ok (forward ++ fenceCaptureMoves b.grid self.color rc.1 rc.2
      [(direction, -1), (direction, 1), (direction, 0)])
  | Except.error e => Except.error e

/-- Embeds `Gosha.get_possible_moves`: every offset within Chebyshev distance
2 (the nested `range(-2, 3)` loops skipping `(0, 0)`), empty or
opposing-colour squares admitted, with no `invulnerable` test. -/
def Gosha.get_possible_moves (self : Piece) (b : Board) : Except PyErr (List String) :=
  match pos_to_indices self.location with
  | Except.ok rc =>
    Except.ok (offsetMoves b.grid self.color rc.1 rc.2
      [(-2, -2), (-2, -1), (-2, 0), (-2, 1), (-2, 2),
       (-1, -2), (-1, -1), (-1, 0), (-1, 1), (-1, 2),
       (0, -2), (0, -1), (0, 1), (0, 2),
       (1, -2), (1, -1), (1, 0), (1, 1), (1, 2),
       (2, -2), (2, -1), (2, 0), (2, 1), (2, 2)])
  | Except.error e => Except.error e

/-- Embeds `CheckersPiece.get_possible_moves`.  Like `Pawn`, its first
statement reads `self.position`, an attribute that is never assigned
(`CheckersPiece.__init__` stores the square as `location` via the base
constructor), so every call raises `AttributeError`. -/
def CheckersPiece.get_possible_moves (_self : Piece) (_b : Board) :
    Except PyErr (List String) :=
  Except.error PyErr.attributeError

/-- Dispatches `get_possible_moves` on the piece's Python class, embedding the
virtual-method resolution of the source's inheritance hierarchy. -/
def getPossibleMoves (self : Piece) (b : Board) : Except PyErr (List String) :=
  match self.kind with
  | Kind.pawn => Pawn.get_possible_moves self b
  | Kind.rook => Rook.get_possible_moves self b
  | Kind.knight => Knight.get_possible_moves self b
  | Kind.bishop => Bishop.get_possible_moves self b
  | Kind.queen => Queen.get_possible_moves self b
  | Kind.king => King.get_possible_moves self b
  | Kind.superBishop => SuperBishop.get_possible_moves self b
  | Kind.fence => Fence.get_possible_moves self b
  | Kind.gosha => Gosha.get_possible_moves self b
  | Kind.checkersPiece => CheckersPiece.get_possible_moves self b

/-- Embeds `SuperBishop.move(self, location, board)`.  Its body tests
`new_location in self.get_possible_moves(board)`, but the parameter is named
`location` and no local, enclosing or module-level binding of `new_location`
exists, so every call raises `NameError` before anything is evaluated. -/
def SuperBishop.move (_self : Piece) (_location : String) (_b : Board) :
    Except PyErr (Bool × Board) :=
  Except.error PyErr.nameError

/-- Embeds `ChessPiece.move(self, new_location, board)` together with the
override resolution: `SuperBishop` overrides `move` (see `SuperBishop.move`);
every other class inherits the base body, which applies the move via
`board.make_move(self.location + '-' + new_location)` exactly when
`new_location` occurs in `self.get_possible_moves(board)` and otherwise
returns `False`, leaving the board untouched. -/
def ChessPiece.move (self : Piece) (new_location : String) (b : Board) :
    Except PyErr (Bool × Board) :=
  match self.kind with
  | Kind.superBishop => SuperBishop.move self new_location b
  | _ =>
    match getPossibleMoves self b with
    | Except.ok moves =>
      if moves.contains new_location then
        match ChessBoard.make_move b (self.location ++ "-" ++ new_location) false with
        | Except.ok b2 => Except.ok (true, b2)
        | Except.error e => Except.error e
      else Except.ok (false, b)
    | Except.error e => Except.error e

/-- Embeds the back-rank layout written by `ChessBoard.setup_board`: rooks on
columns 0 and 7, knights on 1 and 6, bishops on 2 and 5, the queen on 3 and
the king on 4. -/
def backKind (c : Int) : Option Kind :=
  if c = 0 ∨ c = 7 then some Kind.rook
  else if c = 1 ∨ c = 6 then some Kind.knight
  else if c = 2 ∨ c = 5 then some Kind.bishop
  else if c = 3 then some Kind.queen
  else if c = 4 then some Kind.king
  else none

/-- Embeds the grid produced by `ChessBoard.setup_board()`: white pawns on row
1 and black pawns on row 6 (each constructed at `indices_to_pos(row, col)`),
the white back rank on row 0 and the black back rank on row 7 (constructed at
the literal squares `'a1'` … `'e8'`, which coincide with
`indices_to_pos`). -/
def chessInitialGrid : Int → Int → Option Piece := fun r c =>
  if 0 ≤ c ∧ c < 8 then
    if r = 1 then some (Piece.mk Color.white Kind.pawn (indices_to_pos 1 c) false)
    else if r = 6 then some (Piece.mk Color.black Kind.pawn (indices_to_pos 6 c) false)
    else if r = 0 then (backKind c).map fun k => Piece.mk Color.white k (indices_to_pos 0 c) false
    else if r = 7 then (backKind c).map fun k => Piece.mk Color.black k (indices_to_pos 7 c) false
    else none
  else none

/-- Embeds the `Fence` placement loop of option `'2'` in
`ChessGame.setup_replacements`: `Fence(player, pos)` is written to every
column of the given row (the `Fence` constructor sets `invulnerable`). -/
def placeFenceRow (player : Color) (row : Int) (g : Int → Int → Option Piece) :
    List Int → (Int → Int → Option Piece)
  | [] => g
  | c :: rest =>
      placeFenceRow player row
        (setCell g row c (some (Piece.mk player Kind.fence (indices_to_pos row c) true))) rest

/-- Embeds one registered choice of `ChessGame.setup_replacements` applied to
the grid for one player.  Option `'1'` (SuperBishop) sets the two bishop
squares (`'c1'`,`'f1'` for white, `'c8'`,`'f8'` for black, decoding to rows
0/7, columns 2 and 5) to `None` — the source never constructs a `SuperBishop`
instance here.  Option `'2'` (Fence) writes a `Fence` to each column of the
pawn row (1 for white, 6 for black).  Option `'3'` (Gosha) writes a `Gosha`
at `'e1'`/`'e8'` (row 0/7, column 4).  Any other character leaves the grid
unchanged.  (The dictionary `self.replacements` is also updated by the
source; it is read nowhere else in the program and is not modelled.) -/
def applyReplacementChoice (g : Int → Int → Option Piece) (player : Color) (ch : Char) :
    Int → Int → Option Piece :=
  if ch = '1' then
    let row : Int := if player = Color.white then 0 else 7
    clearCells g [(row, 2), (row, 5)]
  else if ch = '2' then
    let row : Int := if player = Color.white then 1 else 6
    placeFenceRow player row g [0, 1, 2, 3, 4, 5, 6, 7]
  else if ch = '3' then
    let row : Int := if player = Color.white then 0 else 7
    setCell g row 4 (some (Piece.mk player Kind.gosha (if player = Color.white then "e1" else "e8") false))
  else g

/-- Decides whether any cell of the 8x8 grid holds a piece of the given kind
(used to state what the replacement phase actually placed). -/
def gridHasKind (g : Int → Int → Option Piece) (k : Kind) : Bool :=
  (List.range 8).any fun r =>
    (List.range 8).any fun c =>
      match g (r : Int) (c : Int) with
      | some p => p.kind == k
      | none => false

/-- Checks whether an `Except`-valued legal-move list contains a square label
(Python `new_location in self.get_possible_moves(board)` when the call
returned normally; `false` when it raised). -/
def exceptContains (e : Except PyErr (List String)) (sq : String) : Bool :=
  match e with
  | Except.ok l => l.contains sq
  | Except.error _ => false

/-- A black `Fence` standing on `c3` (row 2, column 2): constructed by
`Fence('black', 'c3')`, hence `invulnerable`. -/
def blackFenceC3 : Piece := Piece.mk Color.black Kind.fence "c3" true

/-- A white `Knight` on `b1` (row 0, column 1). -/
def whiteKnightB1 : Piece := Piece.mk Color.white Kind.knight "b1" false

/-- Board holding only the white knight on `b1` and the black fence on `c3`. -/
def knightFenceBoard : Board :=
  Board.mk
    (fun r c =>
      if r = 2 ∧ c = 2 then some blackFenceC3
      else if r = 0 ∧ c = 1 then some whiteKnightB1
      else none) []

/-- Board holding a white `SuperBishop` on `a1` and a white pawn on `c3`
(a piece of the mover's own colour standing on the `a1`-`h8` diagonal). -/
def ownPieceDiagBoard : Board :=
  Board.mk
    (fun r c =>
      if r = 0 ∧ c = 0 then some (Piece.mk Color.white Kind.superBishop "a1" false)
      else if r = 2 ∧ c = 2 then some (Piece.mk Color.white Kind.pawn "c3" false)
      else none) []

/-- Board with a single white pawn on `e2`, for exercising a plain move and
its undo. -/
def pawnE2Board : Board :=
  Board.mk
    (fun r c => if r = 1 ∧ c = 4 then some (Piece.mk Color.white Kind.pawn "e2" false) else none)
    []

/-- Checkers-jump configuration: a white `CheckersPiece` on `e5`, a black one
on `d4`, the landing square `c3` empty. -/
def checkersJumpBoard : Board :=
  Board.mk
    (fun r c =>
      if r = 4 ∧ c = 4 then some (Piece.mk Color.white Kind.checkersPiece "e5" false)
      else if r = 3 ∧ c = 3 then some (Piece.mk Color.black Kind.checkersPiece "d4" false)
      else none) []

/-- Sweep configuration: a white `SuperBishop` on `c1` with a white pawn on
`d2` and a black pawn on `e3` standing on the `c1`-`g5` diagonal. -/
def sweepDemoBoard : Board :=
  Board.mk
    (fun r c =>
      if r = 0 ∧ c = 2 then some (Piece.mk Color.white Kind.superBishop "c1" false)
      else if r = 1 ∧ c = 3 then some (Piece.mk Color.white Kind.pawn "d2" false)
      else if r = 2 ∧ c = 4 then some (Piece.mk Color.black Kind.pawn "e3" false)
      else none) []

/-- In-bounds predicate for a grid index pair, as tested throughout the source
by `0 <= i < 8 and 0 <= j < 8`. -/
abbrev inb (r c : Int) : Prop := 0 ≤ r ∧ r < 8 ∧ 0 ≤ c ∧ c < 8

lemma pos_roundtrip (row col : Int) (h1 : 0 ≤ row) (h2 : row < 8) (h3 : 0 ≤ col)
    (h4 : col < 8) : pos_to_indices (indices_to_pos row col) = Except.ok (row, col) := by
  interval_cases row <;> interval_cases col <;> rfl

lemma label_inj (r1 c1 r2 c2 : Int) (h1 : inb r1 c1) (h2 : inb r2 c2)
    (he : indices_to_pos r1 c1 = indices_to_pos r2 c2) : r1 = r2 ∧ c1 = c2 := by
  obtain ⟨a1, a2, a3, a4⟩ := h1
  obtain ⟨b1, b2, b3, b4⟩ := h2
  have ha := pos_roundtrip r1 c1 a1 a2 a3 a4
  have hb := pos_roundtrip r2 c2 b1 b2 b3 b4
  rw [he, hb] at ha
  have := (Except.ok.injEq _ _).mp ha
  exact ⟨((Prod.mk.injEq _ _ _ _ ▸ this).1).symm, ((Prod.mk.injEq _ _ _ _ ▸ this).2).symm⟩

/-- Every label produced by the ray loop names an in-bounds square a positive
number of steps along the direction, and that square is either empty or holds
an opposing non-invulnerable piece (in either mode and for any direction). -/
lemma rayWalk_mem_elim (g : Int → Int → Option Piece) (color : Color) (dr dc : Int)
    (sb : Bool) :
    ∀ (fuel : Nat) (r c : Int) (x : String), x ∈ rayWalk g color dr dc sb fuel r c →
      ∃ j : Nat, 1 ≤ j ∧ j ≤ fuel ∧ inb (r + j * dr) (c + j * dc) ∧
        x = indices_to_pos (r + j * dr) (c + j * dc) ∧
        (g (r + j * dr) (c + j * dc) = none ∨
          ∃ t, g (r + j * dr) (c + j * dc) = some t ∧ t.color ≠ color ∧
            t.invulnerable = false) := by
  intro fuel
  induction fuel with
  | zero => intro r c x hx; simp [rayWalk] at hx
  | succ f ih =>
    intro r c x hx
    simp only [rayWalk] at hx
    by_cases hb : 0 ≤ r + dr ∧ r + dr < 8 ∧ 0 ≤ c + dc ∧ c + dc < 8
    · rw [if_pos hb] at hx
      have e1 : r + ((1 : Nat) : Int) * dr = r + dr := by push_cast; ring
      have e1' : c + ((1 : Nat) : Int) * dc = c + dc := by push_cast; ring
      have shift : ∀ j : Nat, (r + dr) + (j : Int) * dr = r + ((j + 1 : Nat) : Int) * dr ∧
          (c + dc) + (j : Int) * dc = c + ((j + 1 : Nat) : Int) * dc := by
        intro j; constructor <;> push_cast <;> ring
      cases hg : g (r + dr) (c + dc) with
      | none =>
        simp only [hg] at hx
        rcases List.mem_cons.mp hx with h | h
        · refine ⟨1, le_refl 1, by omega, ?_, ?_, ?_⟩
          · rw [e1, e1']; exact hb
          · rw [e1, e1']; exact h
          · left; rw [e1, e1']; exact hg
        · obtain ⟨j, hj1, hjf, hinb, hxl, hkeep⟩ := ih (r + dr) (c + dc) x h
          refine ⟨j + 1, by omega, by omega, ?_, ?_, ?_⟩
          · rw [← (shift j).1, ← (shift j).2]; exact hinb
          · rw [← (shift j).1, ← (shift j).2]; exact hxl
          · rw [← (shift j).1, ← (shift j).2]; exact hkeep
      | some t =>
        simp only [hg] at hx
        by_cases hk : t.color ≠ color ∧ t.invulnerable = false
        · rw [if_pos hk] at hx
          cases sb with
          | true =>
            rw [if_pos rfl] at hx
            rcases List.mem_cons.mp hx with h | h
            · refine ⟨1, le_refl 1, by omega, ?_, ?_, ?_⟩
              · rw [e1, e1']; exact hb
              · rw [e1, e1']; exact h
              · right; rw [e1, e1']; exact ⟨t, hg, hk⟩
            · obtain ⟨j, hj1, hjf, hinb, hxl, hkeep⟩ := ih (r + dr) (c + dc) x h
              refine ⟨j + 1, by omega, by omega, ?_, ?_, ?_⟩
              · rw [← (shift j).1, ← (shift j).2]; exact hinb
              · rw [← (shift j).1, ← (shift j).2]; exact hxl
              · rw [← (shift j).1, ← (shift j).2]; exact hkeep
          | false =>
            rw [if_neg Bool.false_ne_true, List.mem_singleton] at hx
            refine ⟨1, le_refl 1, by omega, ?_, ?_, ?_⟩
            · rw [e1, e1']; exact hb
            · rw [e1, e1']; exact hx
            · right; rw [e1, e1']; exact ⟨t, hg, hk⟩
        · rw [if_neg hk] at hx
          cases sb with
          | true =>
            rw [if_pos rfl] at hx
            obtain ⟨j, hj1, hjf, hinb, hxl, hkeep⟩ := ih (r + dr) (c + dc) x hx
            refine ⟨j + 1, by omega, by omega, ?_, ?_, ?_⟩
            · rw [← (shift j).1, ← (shift j).2]; exact hinb
            · rw [← (shift j).1, ← (shift j).2]; exact hxl
            · rw [← (shift j).1, ← (shift j).2]; exact hkeep
          | false => rw [if_neg Bool.false_ne_true] at hx; simp at hx
    · rw [if_neg hb] at hx
      simp at hx

/-- In pass-through mode the ray loop never halts early: whenever the square
`i` steps away (with every step up to it on the board) is empty or holds an
opposing non-invulnerable piece, its label is in the loop's output — whatever
pieces stand on the intervening squares. -/
lemma rayWalk_super_mem (g : Int → Int → Option Piece) (color : Color) (dr dc : Int) :
    ∀ (i fuel : Nat) (r c : Int), 1 ≤ i → i ≤ fuel →
      (∀ j : Nat, 1 ≤ j → j ≤ i → inb (r + (j : Int) * dr) (c + (j : Int) * dc)) →
      (g (r + (i : Int) * dr) (c + (i : Int) * dc) = none ∨
        ∃ t, g (r + (i : Int) * dr) (c + (i : Int) * dc) = some t ∧ t.color ≠ color ∧
          t.invulnerable = false) →
      indices_to_pos (r + (i : Int) * dr) (c + (i : Int) * dc) ∈
        rayWalk g color dr dc true fuel r c := by
  intro i
  induction i with
  | zero => intro fuel r c h1; exact absurd h1 (by omega)
  | succ n ih =>
    intro fuel r c h1 hf hin hkeep
    obtain ⟨f, rfl⟩ : ∃ f, fuel = f + 1 := ⟨fuel - 1, by omega⟩
    have e1 : r + ((1 : Nat) : Int) * dr = r + dr := by push_cast; ring
    have e1' : c + ((1 : Nat) : Int) * dc = c + dc := by push_cast; ring
    have hb : 0 ≤ r + dr ∧ r + dr < 8 ∧ 0 ≤ c + dc ∧ c + dc < 8 := by
      have := hin 1 (le_refl 1) (by omega)
      rw [e1, e1'] at this; exact this
    cases n with
    | zero =>
      rw [e1, e1'] at hkeep ⊢
      rcases hkeep with hg | ⟨t, hg, hk⟩
      · simp only [rayWalk, hg]
        rw [if_pos hb]
        exact List.mem_cons_self _ _
      · simp only [rayWalk, hg]
        rw [if_pos hb, if_pos hk, if_pos (by trivial)]
        exact List.mem_cons_self _ _
    | succ m =>
      have shift : ∀ j : Nat, (r + dr) + (j : Int) * dr = r + ((j + 1 : Nat) : Int) * dr ∧
          (c + dc) + (j : Int) * dc = c + ((j + 1 : Nat) : Int) * dc := by
        intro j; constructor <;> push_cast <;> ring
      have tail : indices_to_pos (r + ((m + 1 + 1 : Nat) : Int) * dr)
          (c + ((m + 1 + 1 : Nat) : Int) * dc) ∈ rayWalk g color dr dc true f (r + dr) (c + dc) := by
        have hm := ih f (r + dr) (c + dc) (by omega) (by omega) ?_ ?_
        · rw [(shift (m + 1)).1, (shift (m + 1)).2] at hm; exact hm
        · intro j hj1 hj2
          rw [(shift j).1, (shift j).2]
          exact hin (j + 1) (by omega) (by omega)
        · rw [(shift (m + 1)).1, (shift (m + 1)).2]; exact hkeep
      cases hg : g (r + dr) (c + dc) with
      | none =>
        simp only [rayWalk, hg]
        rw [if_pos hb]
        exact List.mem_cons_of_mem _ tail
      | some t =>
        by_cases hk : t.color ≠ color ∧ t.invulnerable = false
        · simp only [rayWalk, hg]
          rw [if_pos hb, if_pos hk, if_pos (by trivial)]
          exact List.mem_cons_of_mem _ tail
        · simp only [rayWalk, hg]
          rw [if_pos hb, if_neg hk, if_pos (by trivial)]
          exact tail

/-- With a nonzero unit direction, the embedded sweep loop from `(r, c)` to
the square `m` steps further visits exactly the cells `0, …, m - 1` steps
along, provided the fuel exceeds `m`. -/
lemma sweepPath_spec (dr dc : Int) (hdr : dr = 1 ∨ dr = -1) :
    ∀ (m fuel : Nat), m < fuel → ∀ (r c : Int),
      sweepPath (r + (m : Int) * dr) (c + (m : Int) * dc) dr dc fuel r c =
        (List.range m).map (fun k : Nat => (r + (k : Int) * dr, c + (k : Int) * dc)) := by
  intro m
  induction m with
  | zero =>
    intro fuel hf r c
    obtain ⟨f, rfl⟩ : ∃ f, fuel = f + 1 := ⟨fuel - 1, by omega⟩
    simp [sweepPath]
  | succ n ih =>
    intro fuel hf r c
    obtain ⟨f, rfl⟩ : ∃ f, fuel = f + 1 := ⟨fuel - 1, by omega⟩
    have hne : ¬(r = r + ((n + 1 : Nat) : Int) * dr ∧ c = c + ((n + 1 : Nat) : Int) * dc) := by
      rcases hdr with rfl | rfl <;> push_cast <;> intro h <;> omega
    have e1 : r + ((n + 1 : Nat) : Int) * dr = (r + dr) + (n : Int) * dr := by push_cast; ring
    have e1' : c + ((n + 1 : Nat) : Int) * dc = (c + dc) + (n : Int) * dc := by push_cast; ring
    simp only [sweepPath]
    rw [if_neg hne, e1, e1', ih f (by omega) (r + dr) (c + dc), List.range_succ_eq_map,
      List.map_cons, List.map_map]
    congr 1
    · simp
    · apply List.map_congr_left
      intro k _
      simp only [Function.comp_apply]
      have : ((Nat.succ k : Nat) : Int) = (k : Int) + 1 := by push_cast; ring
      rw [this, Prod.mk.injEq]
      constructor <;> ring

lemma clearCells_not_mem :
    ∀ (l : List (Int × Int)) (g : Int → Int → Option Piece) (r c : Int),
      (r, c) ∉ l → clearCells g l r c = g r c := by
  intro l
  induction l with
  | nil => intro g r c _; rfl
  | cons a rest ih =>
    intro g r c h
    obtain ⟨ar, ac⟩ := a
    rw [List.mem_cons] at h
    push_neg at h
    simp only [clearCells]
    rw [ih _ r c h.2]
    simp only [setCell]
    rw [if_neg]
    intro hc
    exact h.1 (by rw [hc.1, hc.2])

lemma clearCells_mem :
    ∀ (l : List (Int × Int)) (g : Int → Int → Option Piece) (r c : Int),
      (r, c) ∈ l → clearCells g l r c = none := by
  intro l
  induction l with
  | nil => intro g r c h; simp at h
  | cons a rest ih =>
    intro g r c h
    obtain ⟨ar, ac⟩ := a
    by_cases hr : (r, c) ∈ rest
    · simp only [clearCells]
      exact ih _ r c hr
    · rcases List.mem_cons.mp h with he | he
      · simp only [clearCells]
        rw [clearCells_not_mem rest _ r c hr]
        simp only [setCell]
        rw [if_pos]
        exact ⟨congrArg Prod.fst he, congrArg Prod.snd he⟩
      · exact absurd he hr

/-- Undoing the relocation restores the original piece object: writing
`location := end_pos` and then `location := start_pos` is the identity when
the piece started at `start_pos`. -/
lemma piece_restore (p : Piece) (sp ep : String) (h : p.location = sp) :
    ({ { p with location := ep } with location := sp } : Piece) = p := by
  cases p
  simp only at h
  simp [h]

example : pos_to_indices "e2" = Except.ok (1, 4) := by decide
example : indices_to_pos 1 4 = "e2" := by decide
example : splitDash "e2-e4" = ["e2", "e4"] := by decide
example : pos_to_indices "z9" = Except.ok (8, 25) := by decide
example : pos_to_indices "e2x" = Except.ok (1, 4) := by decide
example : chessInitialGrid 0 1 = some (Piece.mk Color.white Kind.knight "b1" false) := by decide
example : Knight.get_possible_moves (Piece.mk Color.white Kind.knight "b1" false)
    (Board.mk chessInitialGrid []) = Except.ok ["a3", "c3"] := by decide
example : Rook.get_possible_moves (Piece.mk Color.white Kind.rook "a1" false)
    (Board.mk (fun r c => if r = 0 ∧ c = 0 then some (Piece.mk Color.white Kind.rook "a1" false) else none) []) =
    Except.ok ["a2", "a3", "a4", "a5", "a6", "a7", "a8", "b1", "c1", "d1", "e1", "f1", "g1", "h1"] := by
  decide
example : gridHasKind chessInitialGrid Kind.queen = true := by decide
example : gridHasKind chessInitialGrid Kind.fence = false := by decide

/-- C1: the claim states that for every piece, board and destination,
`move` succeeds exactly when the destination is a legal one, and in
particular that this holds for `SuperBishop`'s overridden `move`.  The code
breaks it: `SuperBishop.move` names its parameter `location` but tests
`new_location`, an unbound name, so every call — for every destination and
every board, legal or not — raises `NameError` instead of returning a
success/failure flag (the `Pawn` and `CheckersPiece` legality calls the
base `move` relies on raise `AttributeError` likewise). -/
theorem C1_superbishop_move_raises :
    ∀ (color : Color) (loc : String) (inv : Bool) (dest : String) (b : Board),
      ChessPiece.move (Piece.mk color Kind.superBishop loc inv) dest b =
        Except.error PyErr.nameError :=
  fun _ _ _ _ _ => rfl

/-- C6: the claim describes the en-passant destinations `Pawn`'s move
generator should produce.  The code never produces any: the generator's
first statement reads `self.position`, an attribute that is never assigned
(the constructor stores the square as `location`), so every call — including
the en-passant-eligible position of the claim — raises `AttributeError`
before any destination is computed (and the en-passant block itself reads
the nonexistent `board.move_history`). -/
theorem C6_pawn_moves_raise :
    ∀ (self : Piece) (b : Board),
      Pawn.get_possible_moves self b = Except.error PyErr.attributeError :=
  fun _ _ => rfl

/-- C8 counterexample: `pos_to_indices` does not reject malformed text.
`"z9"` (first character outside a-h) and `"e2x"` (three characters) both
return index pairs instead of failing with any error. -/
theorem C8_counterexample :
    pos_to_indices "z9" = Except.ok (8, 25) ∧ pos_to_indices "e2x" = Except.ok (1, 4) :=
  ⟨rfl, rfl⟩

/-- C8 amended: `pos_to_indices` performs no validation.  Any text with at
least two characters whose second character is a decimal digit — however
long, and whatever its first character — returns the raw arithmetic pair
`(int(c1) - 1, ord(c0) - 97)`; the empty and one-character strings raise
`IndexError` at the subscript; a non-digit second character makes `int()`
raise `ValueError`.  No `InvalidCoordinate` error exists anywhere in the
code. -/
theorem C8_no_validation :
    pos_to_indices "" = Except.error PyErr.indexError ∧
    (∀ c : Char, pos_to_indices (String.mk [c]) = Except.error PyErr.indexError) ∧
    (∀ (c0 c1 : Char) (rest : List Char),
      pos_to_indices (String.mk (c0 :: c1 :: rest)) =
        if c1.isDigit then Except.ok (((c1.toNat : Int) - 48) - 1, (c0.toNat : Int) - 97)
        else Except.error PyErr.valueError) :=
  ⟨rfl, fun _ => rfl, fun _ _ _ => rfl⟩

/-- C9: the claim states that registering the Bishop-to-SuperBishop
substitution removes the bishops and places SuperBishop instances on the
bishop squares.  The code only removes: option `'1'` sets `c1` and `f1`
(for white) to `None` and constructs nothing, so after the replacement
phase the bishop squares are empty and no SuperBishop exists anywhere on
the board — contradicting the menu text promising a SuperBishop in place
of the bishops (options `'2'` and `'3'` do place their substitutes). -/
theorem C9_superbishop_replacement_places_nothing :
    applyReplacementChoice chessInitialGrid Color.white '1' 0 2 = none ∧
    applyReplacementChoice chessInitialGrid Color.white '1' 0 5 = none ∧
    gridHasKind (applyReplacementChoice chessInitialGrid Color.white '1') Kind.superBishop = false ∧
    gridHasKind (applyReplacementChoice chessInitialGrid Color.white '2') Kind.fence = true ∧
    gridHasKind (applyReplacementChoice chessInitialGrid Color.white '3') Kind.gosha = true := by
  refine ⟨by decide, by decide, by decide, by decide, by decide⟩

/-- C3 counterexample: the white knight on `b1` includes `c3` among its
legal destinations although `c3` is occupied by an opposing black `Fence`
with the `invulnerable` flag set — `Knight.get_possible_moves` tests only
the target's colour, never `invulnerable`. -/
theorem C3_counterexample :
    blackFenceC3.invulnerable = true ∧
    blackFenceC3.color ≠ whiteKnightB1.color ∧
    knightFenceBoard.grid 2 2 = some blackFenceC3 ∧
    exceptContains (Knight.get_possible_moves whiteKnightB1 knightFenceBoard) "c3" = true := by
  refine ⟨by decide, by decide, by decide, by decide⟩

/-- C4 counterexample: the pass-through diagonal ray from `a1` does not
contain every square out to the edge: with a piece of the mover's own
colour on `c3`, the ray output is `b2, d4, e5, f6, g7, h8` — it keeps
scanning to the edge but skips `c3` instead of including it. -/
theorem C4_counterexample :
    ownPieceDiagBoard.grid 2 2 ≠ none ∧
    get_diagonal_moves ownPieceDiagBoard "a1" Color.white true =
      Except.ok ["b2", "d4", "e5", "f6", "g7", "h8"] ∧
    exceptContains (get_diagonal_moves ownPieceDiagBoard "a1" Color.white true) "c3" = false := by
  refine ⟨by decide, by decide, by decide⟩

/-- C7: the codec is a bijection between in-range index pairs and valid
two-character labels: decoding the encoding of any in-range `(row, col)`
returns the pair, and encoding the decoding of any valid text (a file letter
`'a'`-`'h'` followed by a rank digit `'1'`-`'8'`) returns the text. -/
theorem C7_codec_roundtrip :
    (∀ (row col : Int), 0 ≤ row → row < 8 → 0 ≤ col → col < 8 →
      pos_to_indices (indices_to_pos row col) = Except.ok (row, col)) ∧
    (∀ (c0 c1 : Char), 'a' ≤ c0 → c0 ≤ 'h' → '1' ≤ c1 → c1 ≤ '8' →
      (pos_to_indices (String.mk [c0, c1])).map (fun rc => indices_to_pos rc.1 rc.2) =
        Except.ok (String.mk [c0, c1])) := by
  constructor
  · exact pos_roundtrip
  · intro c0 c1 h1 h2 h3 h4
    have ha : (97 : Nat) ≤ c0.toNat := h1
    have hb : c0.toNat ≤ 104 := h2
    have ha' : (49 : Nat) ≤ c1.toNat := h3
    have hb' : c1.toNat ≤ 56 := h4
    have hc0 := Char.ofNat_toNat c0
    have hc1 := Char.ofNat_toNat c1
    interval_cases h : c0.toNat <;> interval_cases h' : c1.toNat <;> rw [← hc0, ← hc1] <;> decide

/-- C7 witness: the round trip evaluated on the concrete square `(1, 4)` and
the concrete label `"e2"`. -/
theorem C7_witness :
    (0 : Int) ≤ 1 ∧ (1 : Int) < 8 ∧ (0 : Int) ≤ 4 ∧ (4 : Int) < 8 ∧
    'a' ≤ 'e' ∧ 'e' ≤ 'h' ∧ '1' ≤ '2' ∧ '2' ≤ '8' ∧
    pos_to_indices (indices_to_pos 1 4) = Except.ok (1, 4) ∧
    (pos_to_indices (String.mk ['e', '2'])).map (fun rc => indices_to_pos rc.1 rc.2) =
      Except.ok (String.mk ['e', '2']) :=
  ⟨by decide, by decide, by decide, by decide, by decide, by decide, by decide, by decide,
    C7_codec_roundtrip.1 1 4 (by decide) (by decide) (by decide) (by decide),
    C7_codec_roundtrip.2 'e' '2' (by decide) (by decide) (by decide) (by decide)⟩

/-- C2: applying a non-sweep move and then undoing it restores the board:
whenever the origin square holds a piece whose stored `location` is the
origin (as is the case for every move issued through `ChessPiece.move`) and
the destination is a different square, `make_move` succeeds and
`undo_move` returns a board whose every grid cell and whose move history
equal those of the original board. -/
theorem C2_make_then_undo_restores (b : Board) (sp ep : String) (sr sc er ec : Int)
    (p : Piece)
    (hsplit : splitDash (sp ++ "-" ++ ep) = [sp, ep])
    (hs : pos_to_indices sp = Except.ok (sr, sc))
    (he : pos_to_indices ep = Except.ok (er, ec))
    (hne : ¬(sr = er ∧ sc = ec))
    (hp : b.grid sr sc = some p)
    (hloc : p.location = sp) :
    ∃ b' b'' : Board,
      ChessBoard.make_move b (sp ++ "-" ++ ep) false = Except.ok b' ∧
      ChessBoard.undo_move b' = Except.ok (true, b'') ∧
      (∀ r c : Int, b''.grid r c = b.grid r c) ∧
      b''.movement_history = b.movement_history := by
  have h1 : ChessBoard.make_move b (sp ++ "-" ++ ep) false =
      Except.ok (Board.mk
        (setCell (setCell b.grid er ec (some { p with location := ep })) sr sc none)
        (b.movement_history ++ [MoveRec.mk sp ep { p with location := ep } (b.grid er ec)])) := by
    simp only [ChessBoard.make_move, hsplit, hs, he, hp, Bool.false_eq_true, if_false]
  have h2 : ChessBoard.undo_move (Board.mk
        (setCell (setCell b.grid er ec (some { p with location := ep })) sr sc none)
        (b.movement_history ++ [MoveRec.mk sp ep { p with location := ep } (b.grid er ec)])) =
      Except.ok (true, Board.mk
        (setCell (setCell
            (setCell (setCell b.grid er ec (some { p with location := ep })) sr sc none)
            sr sc (some p)) er ec (b.grid er ec))
        b.movement_history) := by
    simp only [ChessBoard.undo_move, List.getLast?_concat, hs, he, List.dropLast_concat,
      piece_restore p sp ep hloc]
  refine ⟨_, _, h1, h2, ?_, rfl⟩
  intro r c
  by_cases hcs : r = sr ∧ c = sc
  · by_cases hce : r = er ∧ c = ec
    · obtain ⟨x1, x2⟩ := hcs
      obtain ⟨y1, y2⟩ := hce
      exact absurd ⟨by omega, by omega⟩ hne
    · simp only [setCell, if_neg hce, if_pos hcs]
      rw [hcs.1, hcs.2, hp]
  · by_cases hce : r = er ∧ c = ec
    · simp only [setCell, if_pos hce, if_neg hcs]
      rw [hce.1, hce.2]
    · simp only [setCell, if_neg hce, if_neg hcs]

/-- C2 witness: the move `e2-e4` of the lone white pawn on `pawnE2Board`,
applied and undone. -/
theorem C2_witness :
    splitDash ("e2" ++ "-" ++ "e4") = ["e2", "e4"] ∧
    pos_to_indices "e2" = Except.ok (1, 4) ∧
    pos_to_indices "e4" = Except.ok (3, 4) ∧
    ¬((1 : Int) = 3 ∧ (4 : Int) = 4) ∧
    pawnE2Board.grid 1 4 = some (Piece.mk Color.white Kind.pawn "e2" false) ∧
    (Piece.mk Color.white Kind.pawn "e2" false).location = "e2" ∧
    (∃ b' b'' : Board,
      ChessBoard.make_move pawnE2Board ("e2" ++ "-" ++ "e4") false = Except.ok b' ∧
      ChessBoard.undo_move b' = Except.ok (true, b'') ∧
      (∀ r c : Int, b''.grid r c = pawnE2Board.grid r c) ∧
      b''.movement_history = pawnE2Board.movement_history) :=
  ⟨by decide, by decide, by decide, by decide, by decide, by decide,
    C2_make_then_undo_restores pawnE2Board "e2" "e4" 1 4 3 4
      (Piece.mk Color.white Kind.pawn "e2" false)
      (by decide) (by decide) (by decide) (by decide) (by decide) (by decide)⟩

/-- C10: a non-sweep `make_move` changes only the origin cell (which becomes
empty) and the destination cell (which receives the moving piece); every
other cell is untouched, and the appended record's captured piece is the
previous occupant of the destination cell alone.  In particular, for a
checkers jump (origin and landing two diagonal steps apart) the jumped-over
cell in between keeps its piece, which is neither removed nor recorded. -/
theorem C10_nonsweep_frame (b : Board) (sp ep : String) (sr sc er ec : Int) (p : Piece)
    (hsplit : splitDash (sp ++ "-" ++ ep) = [sp, ep])
    (hs : pos_to_indices sp = Except.ok (sr, sc))
    (he : pos_to_indices ep = Except.ok (er, ec))
    (hne : ¬(sr = er ∧ sc = ec))
    (hp : b.grid sr sc = some p) :
    ∃ b' : Board,
      ChessBoard.make_move b (sp ++ "-" ++ ep) false = Except.ok b' ∧
      b'.grid er ec = some { p with location := ep } ∧
      b'.grid sr sc = none ∧
      (∀ r c : Int, ¬(r = sr ∧ c = sc) → ¬(r = er ∧ c = ec) → b'.grid r c = b.grid r c) ∧
      b'.movement_history =
        b.movement_history ++ [MoveRec.mk sp ep { p with location := ep } (b.grid er ec)] := by
  have h1 : ChessBoard.make_move b (sp ++ "-" ++ ep) false =
      Except.ok (Board.mk
        (setCell (setCell b.grid er ec (some { p with location := ep })) sr sc none)
        (b.movement_history ++ [MoveRec.mk sp ep { p with location := ep } (b.grid er ec)])) := by
    simp only [ChessBoard.make_move, hsplit, hs, he, hp, Bool.false_eq_true, if_false]
  refine ⟨_, h1, ?_, ?_, ?_, rfl⟩
  · have hne' : ¬(er = sr ∧ ec = sc) := fun h => hne ⟨h.1.symm, h.2.symm⟩
    simp [setCell, hne']
  · simp [setCell]
  · intro r c hr1 hr2
    simp [setCell, hr1, hr2]

/-- C10 witness: the white checkers piece on `e5` of `checkersJumpBoard`
jumps to `c3` over the black piece on `d4`; the frame property applied to
the jumped-over cell `(3, 3)` leaves the black piece in place, and the
record's captured entry is the (empty) landing square's previous content. -/
theorem C10_witness :
    splitDash ("e5" ++ "-" ++ "c3") = ["e5", "c3"] ∧
    pos_to_indices "e5" = Except.ok (4, 4) ∧
    pos_to_indices "c3" = Except.ok (2, 2) ∧
    ¬((4 : Int) = 2 ∧ (4 : Int) = 2) ∧
    checkersJumpBoard.grid 4 4 = some (Piece.mk Color.white Kind.checkersPiece "e5" false) ∧
    (∃ b' : Board,
      ChessBoard.make_move checkersJumpBoard ("e5" ++ "-" ++ "c3") false = Except.ok b' ∧
      b'.grid 2 2 = some { Piece.mk Color.white Kind.checkersPiece "e5" false with location := "c3" } ∧
      b'.grid 4 4 = none ∧
      (∀ r c : Int, ¬(r = 4 ∧ c = 4) → ¬(r = 2 ∧ c = 2) → b'.grid r c = checkersJumpBoard.grid r c) ∧
      b'.movement_history = checkersJumpBoard.movement_history ++
        [MoveRec.mk "e5" "c3" { Piece.mk Color.white Kind.checkersPiece "e5" false with location := "c3" }
          (checkersJumpBoard.grid 2 2)]) :=
  ⟨by decide, by decide, by decide, by decide, by decide,
    C10_nonsweep_frame checkersJumpBoard "e5" "c3" 4 4 2 2
      (Piece.mk Color.white Kind.checkersPiece "e5" false)
      (by decide) (by decide) (by decide) (by decide) (by decide)⟩

/-- C5: applying a sweep-mode move between two distinct squares on a common
diagonal empties every square strictly between them — whatever stood there —
while the moving piece lands on the destination, the origin empties, and the
appended record captures only the previous occupant of the destination. -/
theorem C5_sweep_clears (b : Board) (sp ep : String) (sr sc er ec : Int) (p : Piece)
    (n : Nat) (dr0 dc0 : Int)
    (hsplit : splitDash (sp ++ "-" ++ ep) = [sp, ep])
    (hs : pos_to_indices sp = Except.ok (sr, sc))
    (he : pos_to_indices ep = Except.ok (er, ec))
    (hp : b.grid sr sc = some p)
    (hin1 : inb sr sc) (hin2 : inb er ec)
    (hn : 0 < n)
    (hdr : dr0 = 1 ∨ dr0 = -1) (hdc : dc0 = 1 ∨ dc0 = -1)
    (hrow : er = sr + (n : Int) * dr0) (hcol : ec = sc + (n : Int) * dc0) :
    ∃ b' : Board,
      ChessBoard.make_move b (sp ++ "-" ++ ep) true = Except.ok b' ∧
      (∀ k : Nat, 1 ≤ k → k < n →
        b'.grid (sr + (k : Int) * dr0) (sc + (k : Int) * dc0) = none) ∧
      b'.grid er ec = some { p with location := ep } ∧
      b'.grid sr sc = none ∧
      b'.movement_history =
        b.movement_history ++ [MoveRec.mk sp ep { p with location := ep } (b.grid er ec)] := by
  obtain ⟨i1, i2, i3, i4⟩ := hin1
  obtain ⟨j1, j2, j3, j4⟩ := hin2
  have hn7 : n ≤ 7 := by rcases hdr with rfl | rfl <;> omega
  have hdr' : (if sr > er then (-1 : Int) else if sr < er then 1 else 0) = dr0 := by
    rcases hdr with rfl | rfl
    · rw [if_neg (by omega), if_pos (by omega)]
    · rw [if_pos (by omega)]
  have hdc' : (if sc > ec then (-1 : Int) else if sc < ec then 1 else 0) = dc0 := by
    rcases hdc with rfl | rfl
    · rw [if_neg (by omega), if_pos (by omega)]
    · rw [if_pos (by omega)]
  have h1 : ChessBoard.make_move b (sp ++ "-" ++ ep) true =
      Except.ok (Board.mk
        (setCell (setCell
            (clearCells b.grid (sweepPath er ec dr0 dc0 8 (sr + dr0) (sc + dc0)))
            er ec (some { p with location := ep })) sr sc none)
        (b.movement_history ++ [MoveRec.mk sp ep { p with location := ep } (b.grid er ec)])) := by
    simp only [ChessBoard.make_move, hsplit, hs, he, hp, hdr', hdc', if_true]
  have cast1 : ((n - 1 : Nat) : Int) = (n : Int) - 1 := by omega
  have e2 : er = (sr + dr0) + ((n - 1 : Nat) : Int) * dr0 := by rw [hrow, cast1]; ring
  have e2' : ec = (sc + dc0) + ((n - 1 : Nat) : Int) * dc0 := by rw [hcol, cast1]; ring
  have hpath : sweepPath er ec dr0 dc0 8 (sr + dr0) (sc + dc0) =
      (List.range (n - 1)).map
        (fun k : Nat => ((sr + dr0) + (k : Int) * dr0, (sc + dc0) + (k : Int) * dc0)) := by
    rw [e2, e2']
    exact sweepPath_spec dr0 dc0 hdr (n - 1) 8 (by omega) (sr + dr0) (sc + dc0)
  have hne_start : ¬(er = sr ∧ ec = sc) := by
    intro h
    rcases hdr with rfl | rfl <;> omega
  refine ⟨_, h1, ?_, ?_, ?_, rfl⟩
  · intro k hk1 hk2
    have hks : ¬(sr + (k : Int) * dr0 = sr ∧ sc + (k : Int) * dc0 = sc) := by
      intro h
      rcases hdr with rfl | rfl <;> omega
    have hke : ¬(sr + (k : Int) * dr0 = er ∧ sc + (k : Int) * dc0 = ec) := by
      intro h
      rw [hrow] at h
      rcases hdr with rfl | rfl <;> omega
    simp only [setCell]
    rw [if_neg hks, if_neg hke]
    apply clearCells_mem
    rw [hpath]
    apply List.mem_map.mpr
    refine ⟨k - 1, List.mem_range.mpr (by omega), ?_⟩
    have castk : ((k - 1 : Nat) : Int) = (k : Int) - 1 := by omega
    rw [castk, Prod.mk.injEq]
    constructor <;> ring
  · simp [setCell, hne_start]
  · simp [setCell]

/-- C5 witness: the white SuperBishop on `c1` of `sweepDemoBoard` sweeps to
`g5`: the own-colour pawn on `d2`, the black pawn on `e3` and the empty `f4`
in between are all cleared, only the previous content of `g5` is recorded. -/
theorem C5_witness :
    splitDash ("c1" ++ "-" ++ "g5") = ["c1", "g5"] ∧
    pos_to_indices "c1" = Except.ok (0, 2) ∧
    pos_to_indices "g5" = Except.ok (4, 6) ∧
    sweepDemoBoard.grid 0 2 = some (Piece.mk Color.white Kind.superBishop "c1" false) ∧
    sweepDemoBoard.grid 1 3 = some (Piece.mk Color.white Kind.pawn "d2" false) ∧
    sweepDemoBoard.grid 2 4 = some (Piece.mk Color.black Kind.pawn "e3" false) ∧
    (∃ b' : Board,
      ChessBoard.make_move sweepDemoBoard ("c1" ++ "-" ++ "g5") true = Except.ok b' ∧
      (∀ k : Nat, 1 ≤ k → k < 4 →
        b'.grid ((0 : Int) + (k : Int) * 1) ((2 : Int) + (k : Int) * 1) = none) ∧
      b'.grid 4 6 = some { Piece.mk Color.white Kind.superBishop "c1" false with location := "g5" } ∧
      b'.grid 0 2 = none ∧
      b'.movement_history = sweepDemoBoard.movement_history ++
        [MoveRec.mk "c1" "g5"
          { Piece.mk Color.white Kind.superBishop "c1" false with location := "g5" }
          (sweepDemoBoard.grid 4 6)]) :=
  ⟨by decide, by decide, by decide, by decide, by decide, by decide,
    C5_sweep_clears sweepDemoBoard "c1" "g5" 0 2 4 6
      (Piece.mk Color.white Kind.superBishop "c1" false) 4 1 1
      (by decide) (by decide) (by decide) (by decide) (by decide) (by decide) (by decide)
      (Or.inl rfl) (Or.inl rfl) (by decide) (by decide)⟩

/-- No square holding an invulnerable piece is ever produced by the ray loop,
in either mode: every produced square is empty or holds a non-invulnerable
opposing piece. -/
lemma rayWalk_no_invuln (b : Board) (tr tc : Int) (t : Piece)
    (hin : inb tr tc) (ht : b.grid tr tc = some t) (hv : t.invulnerable = true)
    (color : Color) (dr dc : Int) (sb : Bool) (fuel : Nat) (r c : Int) :
    indices_to_pos tr tc ∉ rayWalk b.grid color dr dc sb fuel r c := by
  intro hmem
  obtain ⟨j, hj1, hjf, hinb, hxl, hkeep⟩ :=
    rayWalk_mem_elim b.grid color dr dc sb fuel r c _ hmem
  obtain ⟨e1, e2⟩ := label_inj tr tc _ _ hin hinb hxl
  rw [← e1, ← e2] at hkeep
  rcases hkeep with hnone | ⟨t', ht', _, hinv⟩
  · rw [ht] at hnone; exact Option.noConfusion hnone
  · rw [ht] at ht'
    rw [Option.some.injEq] at ht'
    rw [← ht'] at hinv
    rw [hv] at hinv
    exact Bool.noConfusion hinv

/-- Every element of the Fence capture loop names an in-bounds offset square
holding an opposing piece whose `invulnerable` flag is `false`. -/
lemma fenceCaptureMoves_mem_elim (g : Int → Int → Option Piece) (color : Color)
    (row col : Int) :
    ∀ (offs : List (Int × Int)) (x : String), x ∈ fenceCaptureMoves g color row col offs →
      ∃ dr dc : Int, (dr, dc) ∈ offs ∧ inb (row + dr) (col + dc) ∧
        x = indices_to_pos (row + dr) (col + dc) ∧
        ∃ t', g (row + dr) (col + dc) = some t' ∧ t'.color ≠ color ∧
          t'.invulnerable = false := by
  intro offs
  induction offs with
  | nil => intro x hx; simp [fenceCaptureMoves] at hx
  | cons a rest ih =>
    intro x hx
    obtain ⟨dr, dc⟩ := a
    simp only [fenceCaptureMoves] at hx
    by_cases hb : 0 ≤ row + dr ∧ row + dr < 8 ∧ 0 ≤ col + dc ∧ col + dc < 8
    · rw [if_pos hb] at hx
      cases hg : g (row + dr) (col + dc) with
      | none =>
        simp only [hg] at hx
        obtain ⟨dr', dc', hm, rest'⟩ := ih x hx
        exact ⟨dr', dc', List.mem_cons_of_mem _ hm, rest'⟩
      | some t' =>
        simp only [hg] at hx
        by_cases hk : t'.color ≠ color ∧ t'.invulnerable = false
        · rw [if_pos hk] at hx
          rcases List.mem_cons.mp hx with h | h
          · exact ⟨dr, dc, List.mem_cons_self _ _, hb, h, t', hg, hk⟩
          · obtain ⟨dr', dc', hm, rest'⟩ := ih x h
            exact ⟨dr', dc', List.mem_cons_of_mem _ hm, rest'⟩
        · rw [if_neg hk] at hx
          obtain ⟨dr', dc', hm, rest'⟩ := ih x hx
          exact ⟨dr', dc', List.mem_cons_of_mem _ hm, rest'⟩
    · rw [if_neg hb] at hx
      obtain ⟨dr', dc', hm, rest'⟩ := ih x hx
      exact ⟨dr', dc', List.mem_cons_of_mem _ hm, rest'⟩

/-- C3 amended: the shared ray helpers (hence Rook, Bishop, Queen and
SuperBishop) and Fence's own capture rule never offer a square occupied by an
invulnerable piece; the claim's "every piece kind" fails for the offset-based
kinds (Knight, King, Gosha), whose capture test ignores the flag — see the
counterexample — while Pawn's and CheckersPiece's generators raise before
producing anything. -/
theorem C3_rays_and_fence_respect_invulnerable (b : Board) (tr tc : Int) (t : Piece)
    (hin : inb tr tc) (ht : b.grid tr tc = some t) (hv : t.invulnerable = true) :
    (∀ (pos : String) (color : Color) (l : List String),
      get_straight_moves b pos color = Except.ok l → indices_to_pos tr tc ∉ l) ∧
    (∀ (pos : String) (color : Color) (sb : Bool) (l : List String),
      get_diagonal_moves b pos color sb = Except.ok l → indices_to_pos tr tc ∉ l) ∧
    (∀ (self : Piece) (fr fc : Int),
      pos_to_indices self.location = Except.ok (fr, fc) → inb fr fc →
      ∀ l : List String,
        Fence.get_possible_moves self b = Except.ok l → indices_to_pos tr tc ∉ l) := by
  refine ⟨?_, ?_, ?_⟩
  · intro pos color l hok hmem
    cases hd : pos_to_indices pos with
    | error e => simp [get_straight_moves, hd] at hok
    | ok rc =>
      simp only [get_straight_moves, hd] at hok
      rw [Except.ok.injEq] at hok
      rw [← hok] at hmem
      obtain ⟨d, _, hray⟩ := List.mem_flatMap.mp hmem
      exact rayWalk_no_invuln b tr tc t hin ht hv color d.1 d.2 false 7 rc.1 rc.2 hray
  · intro pos color sb l hok hmem
    cases hd : pos_to_indices pos with
    | error e => simp [get_diagonal_moves, hd] at hok
    | ok rc =>
      simp only [get_diagonal_moves, hd] at hok
      rw [Except.ok.injEq] at hok
      rw [← hok] at hmem
      obtain ⟨d, _, hray⟩ := List.mem_flatMap.mp hmem
      exact rayWalk_no_invuln b tr tc t hin ht hv color d.1 d.2 sb 7 rc.1 rc.2 hray
  · intro self fr fc hd hinf l hok hmem
    simp only [Fence.get_possible_moves, hd] at hok
    rw [Except.ok.injEq] at hok
    rw [← hok] at hmem
    rcases List.mem_append.mp hmem with hfwd | hcap
    · by_cases hc : 0 ≤ fr + (if self.color = Color.white then (1 : Int) else -1) ∧
          fr + (if self.color = Color.white then (1 : Int) else -1) < 8 ∧
          b.grid (fr + (if self.color = Color.white then (1 : Int) else -1)) fc = none
      · rw [if_pos hc, List.mem_singleton] at hfwd
        have hinfw : inb (fr + (if self.color = Color.white then (1 : Int) else -1)) fc :=
          ⟨hc.1, hc.2.1, hinf.2.2.1, hinf.2.2.2⟩
        obtain ⟨e1, e2⟩ := label_inj tr tc _ _ hin hinfw hfwd
        have := hc.2.2
        rw [← e1, ← e2, ht] at this
        exact Option.noConfusion this
      · rw [if_neg hc] at hfwd
        exact List.not_mem_nil _ hfwd
    · obtain ⟨dr, dc, _, hinb2, hxl, t', ht', _, hinv⟩ :=
        fenceCaptureMoves_mem_elim b.grid self.color fr fc _ _ hcap
      obtain ⟨e1, e2⟩ := label_inj tr tc _ _ hin hinb2 hxl
      rw [← e1, ← e2, ht, Option.some.injEq] at ht'
      rw [← ht', hv] at hinv
      exact Bool.noConfusion hinv

/-- C3 witness: the invulnerability guarantee of the ray helpers and the
Fence capture rule, instantiated on `knightFenceBoard` with the black fence
on `c3`. -/
theorem C3_witness :
    inb 2 2 ∧
    knightFenceBoard.grid 2 2 = some blackFenceC3 ∧
    blackFenceC3.invulnerable = true ∧
    ((∀ (pos : String) (color : Color) (l : List String),
      get_straight_moves knightFenceBoard pos color = Except.ok l →
        indices_to_pos 2 2 ∉ l) ∧
    (∀ (pos : String) (color : Color) (sb : Bool) (l : List String),
      get_diagonal_moves knightFenceBoard pos color sb = Except.ok l →
        indices_to_pos 2 2 ∉ l) ∧
    (∀ (self : Piece) (fr fc : Int),
      pos_to_indices self.location = Except.ok (fr, fc) → inb fr fc →
      ∀ l : List String,
        Fence.get_possible_moves self knightFenceBoard = Except.ok l →
          indices_to_pos 2 2 ∉ l)) :=
  ⟨by decide, by decide, by decide,
    C3_rays_and_fence_respect_invulnerable knightFenceBoard 2 2 blackFenceC3
      (by decide) (by decide) (by decide)⟩

/-- C4 amended: in pass-through mode a diagonal ray from an on-board square
never halts before the boundary, but it does not contain *every* square it
passes: a square `i` steps out (still on the board) is in the ray's output
exactly when it is empty or holds a non-invulnerable opposing piece, and is
skipped — while scanning continues past it — when it holds an own-colour or
invulnerable piece.  `get_diagonal_moves` with `super_bishop=True`, and hence
`SuperBishop.get_possible_moves`, is the union of these four rays. -/
theorem C4_passthrough_ray (b : Board) (color : Color) (dr dc : Int)
    (hdr : dr = 1 ∨ dr = -1) (hdc : dc = 1 ∨ dc = -1)
    (r c : Int) (hrc : inb r c) (i : Nat) (hi : 1 ≤ i)
    (ht : inb (r + (i : Int) * dr) (c + (i : Int) * dc)) :
    ((b.grid (r + (i : Int) * dr) (c + (i : Int) * dc) = none ∨
      ∃ t, b.grid (r + (i : Int) * dr) (c + (i : Int) * dc) = some t ∧
        t.color ≠ color ∧ t.invulnerable = false) →
      indices_to_pos (r + (i : Int) * dr) (c + (i : Int) * dc) ∈
        rayWalk b.grid color dr dc true 7 r c) ∧
    (∀ t, b.grid (r + (i : Int) * dr) (c + (i : Int) * dc) = some t →
      (t.color = color ∨ t.invulnerable = true) →
      indices_to_pos (r + (i : Int) * dr) (c + (i : Int) * dc) ∉
        rayWalk b.grid color dr dc true 7 r c) := by
  obtain ⟨a1, a2, a3, a4⟩ := hrc
  obtain ⟨b1, b2, b3, b4⟩ := ht
  have hi7 : i ≤ 7 := by rcases hdr with rfl | rfl <;> omega
  have hmid : ∀ j : Nat, 1 ≤ j → j ≤ i → inb (r + (j : Int) * dr) (c + (j : Int) * dc) := by
    intro j hj1 hj2
    rcases hdr with rfl | rfl <;> rcases hdc with rfl | rfl <;>
      exact ⟨by omega, by omega, by omega, by omega⟩
  constructor
  · intro hkeep
    exact rayWalk_super_mem b.grid color dr dc i 7 r c hi hi7 hmid hkeep
  · intro t htg hbad hmem
    obtain ⟨j, hj1, hj7, hinbj, hxl, hkeep⟩ :=
      rayWalk_mem_elim b.grid color dr dc true 7 r c _ hmem
    obtain ⟨e1, e2⟩ := label_inj _ _ _ _ ⟨b1, b2, b3, b4⟩ hinbj hxl
    have hji : j = i := by rcases hdr with rfl | rfl <;> omega
    rw [hji] at hkeep
    rcases hkeep with hnone | ⟨t', ht', hc', hv'⟩
    · rw [htg] at hnone
      exact Option.noConfusion hnone
    · rw [htg, Option.some.injEq] at ht'
      rcases hbad with hb1 | hb2
      · rw [ht'] at hb1
        exact hc' hb1
      · rw [ht'] at hb2
        rw [hv'] at hb2
        exact Bool.noConfusion hb2

/-- C4 witness: the `(1, 1)` pass-through ray from `a1` on
`ownPieceDiagBoard`, evaluated at the square two steps out (`c3`, which
holds an own-colour pawn and is therefore skipped while the scan
continues). -/
theorem C4_witness :
    ((1 : Int) = 1 ∨ (1 : Int) = -1) ∧
    inb 0 0 ∧
    (1 ≤ 2) ∧
    inb ((0 : Int) + (2 : Nat) * 1) ((0 : Int) + (2 : Nat) * 1) ∧
    (((ownPieceDiagBoard.grid ((0 : Int) + (2 : Nat) * 1) ((0 : Int) + (2 : Nat) * 1) = none ∨
      ∃ t, ownPieceDiagBoard.grid ((0 : Int) + (2 : Nat) * 1) ((0 : Int) + (2 : Nat) * 1) = some t ∧
        t.color ≠ Color.white ∧ t.invulnerable = false) →
      indices_to_pos ((0 : Int) + (2 : Nat) * 1) ((0 : Int) + (2 : Nat) * 1) ∈
        rayWalk ownPieceDiagBoard.grid Color.white 1 1 true 7 0 0) ∧
    (∀ t, ownPieceDiagBoard.grid ((0 : Int) + (2 : Nat) * 1) ((0 : Int) + (2 : Nat) * 1) = some t →
      (t.color = Color.white ∨ t.invulnerable = true) →
      indices_to_pos ((0 : Int) + (2 : Nat) * 1) ((0 : Int) + (2 : Nat) * 1) ∉
        rayWalk ownPieceDiagBoard.grid Color.white 1 1 true 7 0 0)) :=
  ⟨Or.inl rfl, by decide, by decide, by decide,
    C4_passthrough_ray ownPieceDiagBoard Color.white 1 1 (Or.inl rfl) (Or.inl rfl)
      0 0 (by decide) 2 (by decide) (by decide)⟩
